import Mathlib

/-!
Shallow embedding of the market-universe sampling scheduler of
`src/collector/universe_raw_collector.py` (and the retry helper of
`src/collector/universe_export.py`), together with theorems settling the
frozen claims about ranking, level hysteresis, fallback safety, spread
filtering, buffering and scheduling.

Floats of the source are modelled as exact rationals; `defaultdict(int)`
counters as total functions with default 0; dicts as association lists
(insertion-ordered, as in Python) or as `String → Option _` maps where the
source only performs keyed get/set.
-/

namespace Collector

/-- Sampling level, the Python strings "A".."D". -/
inductive Level
  | A
  | B
  | C
  | D
deriving DecidableEq, Repr

/-- `LEVEL_A_INTERVAL_MS = 250`. -/
def LEVEL_A_INTERVAL_MS : Int := 250

/-- `LEVEL_B_INTERVAL_MS = 2000`. -/
def LEVEL_B_INTERVAL_MS : Int := 2000

/-- `LEVEL_C_INTERVAL_MS = 2000`. -/
def LEVEL_C_INTERVAL_MS : Int := 2000

/-- `LEVEL_D_INTERVAL_MS = 2000`. -/
def LEVEL_D_INTERVAL_MS : Int := 2000

/-- `SPREAD_BPS_IGNORE_THRESHOLD = 30`. -/
def SPREAD_BPS_IGNORE_THRESHOLD : ℚ := 30

/-- `SPREAD_BPS_NO_A_THRESHOLD = 15`. -/
def SPREAD_BPS_NO_A_THRESHOLD : ℚ := 15

/-- `SAFETY_ASSETS = {"BTC", "ETH", "SOL"}`. -/
def SAFETY_ASSETS : List String := ["BTC", "ETH", "SOL"]

/-- Dataclass `MarketInfo`. -/
structure MarketInfo where
  base : String
  quote : String
  market_type : String
  variant : String
  symbol_raw : String
deriving DecidableEq, Repr

/-- Dataclass `MarketRanking`; nullable floats become `Option ℚ`. -/
structure MarketRanking where
  symbol_raw : String
  rank : Nat
  score : ℚ
  volume_24h_usd : Option ℚ
  open_interest_usd : Option ℚ
  spread_bps : Option ℚ
deriving DecidableEq, Repr

/-- Dataclass `MarketSchedule`. -/
structure MarketSchedule where
  symbol_raw : String
  level : Level
  next_due_ms : Int
  interval_ms : Int
deriving DecidableEq, Repr

/-- Pointwise update of a keyed map, the effect of `d[k] = v`. -/
def updateFn {α : Type} (f : String → α) (sym : String) (v : α) : String → α :=
  fun s => if s = sym then v else f s

/-- The rank-only cascade at the end of `_assign_level_from_rank`
(`rank <= 100 -> A`, `<= 200 -> B`, `<= 300 -> C`, `<= 400 -> D`, else D). -/
def direct_level_from_rank (rank : Nat) : Level :=
  if rank ≤ 100 then Level.A
  else if rank ≤ 200 then Level.B
  else if rank ≤ 300 then Level.C
  else if rank ≤ 400 then Level.D
  else Level.D

/-- `_assign_level_from_rank`: the spread guards divert a would-be A
(rank ≤ 100 with spread > 15, or with spread missing) to B, otherwise the
rank cascade decides. -/
def assign_level_from_rank (rank : Nat) (spread_bps : Option ℚ) : Level :=
  match spread_bps with
  | some s =>
      if SPREAD_BPS_NO_A_THRESHOLD < s ∧ rank ≤ 100 then Level.B
      else direct_level_from_rank rank
  | none =>
      if rank ≤ 100 then Level.B
      else direct_level_from_rank rank

/-- `_get_interval_for_level`. -/
def get_interval_for_level : Level → Int
  | Level.A => LEVEL_A_INTERVAL_MS
  | Level.B => LEVEL_B_INTERVAL_MS
  | Level.C => LEVEL_C_INTERVAL_MS
  | Level.D => LEVEL_D_INTERVAL_MS

/-- The mutable level-state of the collector: `self.schedules` plus the two
`defaultdict(int)` hysteresis counter maps. -/
structure CollectorLevelState where
  schedules : String → Option MarketSchedule
  promotion_counters : String → Nat
  demotion_counters : String → Nat

/-- `self.schedules.get(symbol_raw, MarketSchedule(symbol_raw, "D", 0, ...)).level`. -/
def currentLevel (st : CollectorLevelState) (sym : String) : Level :=
  match st.schedules sym with
  | some sch => sch.level
  | none => Level.D

/-- The promotion-eligibility test of `_update_levels_with_hysteresis`:
`rank <= 100 and (spread_bps is None or spread_bps <= SPREAD_BPS_NO_A_THRESHOLD)`. -/
def promotionEligible (rank : Nat) (spread_bps : Option ℚ) : Bool :=
  decide (rank ≤ 100) &&
    (match spread_bps with
     | none => true
     | some s => decide (s ≤ SPREAD_BPS_NO_A_THRESHOLD))

/-- The demotion-eligibility test of `_update_levels_with_hysteresis`:
`rank > 120`, or else `spread_bps is not None and spread_bps > 20`. -/
def demotionEligible (rank : Nat) (spread_bps : Option ℚ) : Bool :=
  decide (120 < rank) ||
    (match spread_bps with
     | none => false
     | some s => decide (20 < s))

/-- One iteration of the per-market loop body of
`_update_levels_with_hysteresis`.  The three top-level branches mirror the
source: `if current_level != "A"` (promotion logic), `elif current_level ==
"A"` (demotion logic), and the source's trailing `else` (direct assignment
for non-A levels), which is kept here exactly as written even though the
first two branches make it unreachable. -/
def update_one (st : CollectorLevelState) (sym : String) (r : MarketRanking) :
    CollectorLevelState :=
  let current_level := currentLevel st sym
  if current_level ≠ Level.A then
    if promotionEligible r.rank r.spread_bps then
      let c := st.promotion_counters sym + 1
      if 3 ≤ c then
        { st with
          schedules := updateFn st.schedules sym
            (some ⟨sym, Level.A, 0, LEVEL_A_INTERVAL_MS⟩),
          promotion_counters := updateFn st.promotion_counters sym 0 }
      else
        { st with promotion_counters := updateFn st.promotion_counters sym c }
    else
      { st with promotion_counters := updateFn st.promotion_counters sym 0 }
  else if current_level = Level.A then
    if demotionEligible r.rank r.spread_bps then
      let c := st.demotion_counters sym + 1
      if 3 ≤ c then
        let new_level := assign_level_from_rank r.rank r.spread_bps
        { st with
          schedules := updateFn st.schedules sym
            (some ⟨sym, new_level, 0, get_interval_for_level new_level⟩),
          demotion_counters := updateFn st.demotion_counters sym 0 }
      else
        { st with demotion_counters := updateFn st.demotion_counters sym c }
    else
      { st with demotion_counters := updateFn st.demotion_counters sym 0 }
  else
    let new_level := assign_level_from_rank r.rank r.spread_bps
    { st with
      schedules := updateFn st.schedules sym
        (some ⟨sym, new_level, 0, get_interval_for_level new_level⟩) }

/-- `_update_levels_with_hysteresis`: the loop `for symbol_raw, ranking in
rankings.items()`, with the rankings dict as an insertion-ordered
association list. -/
def update_levels_with_hysteresis :
    List (String × MarketRanking) → CollectorLevelState → CollectorLevelState
  | [], st => st
  | (sym, r) :: rest, st => update_levels_with_hysteresis rest (update_one st sym r)

/-- The per-market body of the `_apply_fallback_safety` loop: a safety-base
market with an existing schedule at a level outside {A, B} is forced to B. -/
def apply_fallback_safety_one (schedules : String → Option MarketSchedule)
    (market : MarketInfo) : String → Option MarketSchedule :=
  if market.base ∈ SAFETY_ASSETS then
    match schedules market.symbol_raw with
    | some sch =>
        if sch.level ≠ Level.A ∧ sch.level ≠ Level.B then
          updateFn schedules market.symbol_raw
            (some ⟨market.symbol_raw, Level.B, 0, LEVEL_B_INTERVAL_MS⟩)
        else schedules
    | none => schedules
  else schedules

/-- `_apply_fallback_safety`: the loop over `self.markets` (the
`fallback_active` bookkeeping only feeds logging and is not modelled). -/
def apply_fallback_safety (markets : List MarketInfo)
    (schedules : String → Option MarketSchedule) : String → Option MarketSchedule :=
  match markets with
  | [] => schedules
  | market :: rest => apply_fallback_safety rest (apply_fallback_safety_one schedules market)

/-- The trailing loop of `_refresh_rankings`: create a schedule for every
catalog market that has none yet, at the rank-mapped level when the market
is ranked and at D otherwise. -/
def init_unscheduled (rankings : List (String × MarketRanking)) :
    List MarketInfo → (String → Option MarketSchedule) → (String → Option MarketSchedule)
  | [], schedules => schedules
  | market :: rest, schedules =>
      match schedules market.symbol_raw with
      | some _ => init_unscheduled rankings rest schedules
      | none =>
          let level :=
            match List.lookup market.symbol_raw rankings with
            | some r => assign_level_from_rank r.rank r.spread_bps
            | none => Level.D
          init_unscheduled rankings rest
            (updateFn schedules market.symbol_raw
              (some ⟨market.symbol_raw, level, 0, get_interval_for_level level⟩))

/-- `_refresh_rankings` downstream of `_calculate_rankings`: an empty
ranking map short-circuits to the fallback pass; otherwise hysteresis
update, fallback pass, then initialization of unscheduled markets. -/
def refresh_rankings (rankings : List (String × MarketRanking))
    (markets : List MarketInfo) (st : CollectorLevelState) : CollectorLevelState :=
  if rankings = [] then
    { st with schedules := apply_fallback_safety markets st.schedules }
  else
    let st1 := update_levels_with_hysteresis rankings st
    let st2 := { st1 with schedules := apply_fallback_safety markets st1.schedules }
    { st2 with schedules := init_unscheduled rankings markets st2.schedules }

/-- `_calculate_percentile_rank`: counts of strictly-smaller and equal
values over `sorted(all_values)`, mid-rank tie handling. -/
def calculate_percentile_rank (value : ℚ) (all_values : List ℚ) : ℚ :=
  if all_values = [] then 0
  else
    let sorted_values := all_values.mergeSort (fun a b => decide (a ≤ b))
    let count_below : ℚ := sorted_values.countP (fun v => decide (v < value))
    let count_equal : ℚ := sorted_values.countP (fun v => decide (v = value))
    (count_below + count_equal / 2) / all_values.length

/-- The metric columns of one most-recent `MarketSample` row as consumed by
`_calculate_rankings`. -/
structure SampleRow where
  volume_24h_usd : Option ℚ
  open_interest_usd : Option ℚ
  spread_bps : Option ℚ
deriving DecidableEq, Repr

/-- The per-market score computation of `_calculate_rankings`: `x or 0.0`
coalescing, the guarded percentile normalizations, and the composite
`0.6 * volume_norm + 0.3 * oi_norm - 0.1 * spread_norm`. -/
def computeScore (volumes ois spreads : List ℚ) (row : SampleRow) : ℚ :=
  let volume := row.volume_24h_usd.getD 0
  let oi := row.open_interest_usd.getD 0
  let spread := row.spread_bps.getD 0
  let volume_norm := if volumes = [] then 0 else calculate_percentile_rank volume volumes
  let oi_norm := if ois = [] then 0 else calculate_percentile_rank oi ois
  let spread_norm := if spreads = [] then 0 else calculate_percentile_rank spread spreads
  0.6 * volume_norm + 0.3 * oi_norm - 0.1 * spread_norm

/-- The `volumes` list accumulated by `_calculate_rankings` (non-null
metric values in `market_data` order). -/
def volumesOf (md : List (String × SampleRow)) : List ℚ :=
  md.filterMap (fun p => p.2.volume_24h_usd)

/-- The `ois` list accumulated by `_calculate_rankings`. -/
def oisOf (md : List (String × SampleRow)) : List ℚ :=
  md.filterMap (fun p => p.2.open_interest_usd)

/-- The `spreads` list accumulated by `_calculate_rankings`. -/
def spreadsOf (md : List (String × SampleRow)) : List ℚ :=
  md.filterMap (fun p => p.2.spread_bps)

/-- The `market_scores` list of `_calculate_rankings`, in `market_data`
(insertion/discovery) order. -/
def market_scores (md : List (String × SampleRow)) : List (String × ℚ) :=
  md.map (fun p => (p.1, computeScore (volumesOf md) (oisOf md) (spreadsOf md) p.2))

/-- The `rankings` dict of `_calculate_rankings` as first built, every rank
still the placeholder 0, in `market_data` order. -/
def rankings_init (md : List (String × SampleRow)) : List (String × MarketRanking) :=
  md.map (fun p =>
    (p.1,
     { symbol_raw := p.1
       rank := 0
       score := computeScore (volumesOf md) (oisOf md) (spreadsOf md) p.2
       volume_24h_usd := p.2.volume_24h_usd
       open_interest_usd := p.2.open_interest_usd
       spread_bps := p.2.spread_bps }))

/-- The comparison realized by `market_scores.sort(key=lambda x: x[1],
reverse=True)`: a stable sort descending by score. -/
def scoreDescLE (a b : String × ℚ) : Bool := decide (b.2 ≤ a.2)

/-- `rankings[symbol].rank = rank` on an association list. -/
def setRank (rs : List (String × MarketRanking)) (sym : String) (rank : Nat) :
    List (String × MarketRanking) :=
  rs.map (fun p => if p.1 = sym then (p.1, { p.2 with rank := rank }) else p)

/-- The rank-assignment loop `for rank, (symbol, _) in
enumerate(market_scores, start=1)` walking the sorted score list. -/
def assignRanks : List (String × ℚ) → Nat → List (String × MarketRanking) →
    List (String × MarketRanking)
  | [], _, rs => rs
  | (sym, _) :: rest, k, rs => assignRanks rest (k + 1) (setRank rs sym k)

/-- `_calculate_rankings` downstream of the DB read: `market_data` is the
most-recent-sample-per-symbol dict (keys distinct, insertion order kept). -/
def calculate_rankings (md : List (String × SampleRow)) : List (String × MarketRanking) :=
  assignRanks ((market_scores md).mergeSort scoreDescLE) 1 (rankings_init md)

/-- A `MarketSample` row as built by `collect_sample`. -/
structure MarketSampleRec where
  ts_ms : Int
  base : String
  quote : String
  market_type : String
  variant : String
  symbol_raw : String
  bid : Option ℚ
  ask : Option ℚ
  mid : Option ℚ
  spread_bps : Option ℚ
  mark_price : Option ℚ
  funding_rate : Option ℚ
  open_interest_usd : Option ℚ
  volume_24h_usd : Option ℚ
  level : Level
  score : Option ℚ
  stale_flag : Bool
deriving DecidableEq, Repr

/-- A per-asset context entry after `_parse_float` of the aliased fields. -/
structure AssetCtx where
  mark_price : Option ℚ
  funding_rate : Option ℚ
  open_interest_usd : Option ℚ
  volume_24h_usd : Option ℚ
deriving DecidableEq, Repr

/-- The bid/ask/mid/spread computation of `collect_sample` from the
`_best_price` results: all four stay `None` unless both best prices are
present and positive; `spread_bps` additionally needs `mid > 0`. -/
def book_top (best_bid best_ask : Option ℚ) :
    Option ℚ × Option ℚ × Option ℚ × Option ℚ :=
  match best_bid, best_ask with
  | some bb, some aa =>
      if 0 < bb ∧ 0 < aa then
        let mid := (bb + aa) / 2
        if 0 < mid then (some bb, some aa, some mid, some (((aa - bb) / mid) * 10000))
        else (some bb, some aa, some mid, none)
      else (none, none, none, none)
  | _, _ => (none, none, none, none)

/-- `collect_sample` from the orderbook parse down to the constructed
`MarketSample`, the fetch and shape-normalization abstracted into the
`best_bid`/`best_ask`/`fetch_failed` inputs and the context dict into
already-parsed `AssetCtx` fields.  Returns the optional sample together
with the updated `skipped_spread_gt_30` counter. -/
def collect_sample_core (ts_ms : Int) (market : MarketInfo)
    (best_bid best_ask : Option ℚ) (fetch_failed : Bool)
    (contexts : String → Option AssetCtx)
    (rankings : String → Option MarketRanking)
    (schedules : String → Option MarketSchedule)
    (skipped_spread_gt_30 : Nat) : Option MarketSampleRec × Nat :=
  let top := book_top best_bid best_ask
  let bid := top.1
  let ask := top.2.1
  let mid := top.2.2.1
  let spread_bps := top.2.2.2
  match spread_bps with
  | some s =>
      if SPREAD_BPS_IGNORE_THRESHOLD < s then
        (none, skipped_spread_gt_30 + 1)
      else
        (some (mk_market_sample ts_ms market bid ask mid spread_bps fetch_failed
          contexts rankings schedules), skipped_spread_gt_30)
  | none =>
      (some (mk_market_sample ts_ms market bid ask mid spread_bps fetch_failed
        contexts rankings schedules), skipped_spread_gt_30)
where
  /-- Context merge, staleness tagging and level/score attachment of
  `collect_sample` (the code below the spread filter). -/
  mk_market_sample (ts_ms : Int) (market : MarketInfo)
      (bid ask mid spread_bps : Option ℚ) (fetch_failed : Bool)
      (contexts : String → Option AssetCtx)
      (rankings : String → Option MarketRanking)
      (schedules : String → Option MarketSchedule) : MarketSampleRec :=
    let ctxFields :=
      match contexts market.base with
      | some c =>
          if market.market_type = "PERP" then
            (c.mark_price, c.funding_rate, c.open_interest_usd, c.volume_24h_usd)
          else
            (none, none, none, c.volume_24h_usd)
      | none => (none, none, none, none)
    let stale_flag := fetch_failed || bid.isNone || ask.isNone
    let levelScore :=
      match rankings market.symbol_raw with
      | some r =>
          (match schedules market.symbol_raw with
           | some sch => (sch.level, some r.score)
           | none => (Level.D, some r.score))
      | none => (Level.D, none)
    { ts_ms := ts_ms
      base := market.base
      quote := market.quote
      market_type := market.market_type
      variant := market.variant
      symbol_raw := market.symbol_raw
      bid := bid
      ask := ask
      mid := mid
      spread_bps := spread_bps
      mark_price := ctxFields.1
      funding_rate := ctxFields.2.1
      open_interest_usd := ctxFields.2.2.1
      volume_24h_usd := ctxFields.2.2.2
      level := levelScore.1
      score := levelScore.2
      stale_flag := stale_flag }

/-- The buffer plus the committed store, as seen across `flush_buffer`. -/
structure BufferState where
  buffer : List MarketSampleRec
  db : List MarketSampleRec
  rows_buffered : Nat
deriving DecidableEq, Repr

/-- `flush_buffer`: swap the buffer out under the lock, insert outside it
(`concurrent_appends` are producer appends that land while the insert
runs), and on failure extend the live buffer with the swapped-out batch.
Returns the new state and `rows_inserted`. -/
def flush_buffer (insert_ok : Bool) (concurrent_appends : List MarketSampleRec)
    (st : BufferState) : BufferState × Nat :=
  if st.buffer = [] then (st, 0)
  else
    let samples := st.buffer
    let live := concurrent_appends
    if insert_ok then
      ({ buffer := live, db := st.db ++ samples, rows_buffered := live.length },
       samples.length)
    else
      ({ buffer := live ++ samples, db := st.db,
         rows_buffered := (live ++ samples).length }, 0)

/-- Outcome of one call to a storage operation: a value, or an exception
whose message does or does not match the busy/locked test. -/
inductive OpOutcome (α : Type)
  | ok (a : α)
  | err (locked : Bool)
deriving DecidableEq, Repr

/-- Observable trace of `_retry_on_lock`: the returned value if any, the
exception surfaced to the caller if any, and the delays slept in order. -/
structure RetryTrace (α : Type) where
  result : Option α
  raised : Option Bool
  slept : List ℚ
deriving DecidableEq, Repr

/-- The `for attempt in range(max_retries)` loop of `_retry_on_lock`; the
fuel argument counts the remaining loop iterations, and exhausting it is
the function's trailing `return None`. -/
def retry_on_lock_go {α : Type} (op : Nat → OpOutcome α) (max_retries : Nat)
    (delays : List ℚ) : Nat → Nat → List ℚ → RetryTrace α
  | 0, _, slept => ⟨none, none, slept⟩
  | fuel + 1, attempt, slept =>
      match op attempt with
      | .ok a => ⟨some a, none, slept⟩
      | .err locked =>
          if locked then
            if attempt < max_retries - 1 then
              let delay := delays.getD (min attempt (delays.length - 1)) 0
              retry_on_lock_go op max_retries delays fuel (attempt + 1) (slept ++ [delay])
            else ⟨none, some true, slept⟩
          else ⟨none, some false, slept⟩

/-- `_retry_on_lock` with its default arguments `max_retries=3`,
`delays=[0.2, 0.5, 1.0]`. -/
def retry_on_lock {α : Type} (op : Nat → OpOutcome α) : RetryTrace α :=
  retry_on_lock_go op 3 [0.2, 0.5, 1.0] 3 0 []

/-- `UniverseRawCollector.get_db_rows_24h`: one `count()` call; any
exception is logged and converted to 0.  Returns the value, the number of
attempts made, and the exception surfaced to the caller if any. -/
def get_db_rows_24h (count_op : OpOutcome Nat) : Nat × Nat × Option Bool :=
  match count_op with
  | .ok n => (n, 1, none)
  | .err _ => (0, 1, none)

/-- `_get_markets_due_for_sampling`: walk the catalog; a market with no
schedule is due and left unscheduled, a scheduled market is due iff
`now_ms >= next_due_ms`, and a selected scheduled market gets
`next_due_ms = now_ms + interval_ms` written in place. -/
def get_markets_due_for_sampling (now_ms : Int) :
    List MarketInfo → (String → Option MarketSchedule) →
    List MarketInfo × (String → Option MarketSchedule)
  | [], schedules => ([], schedules)
  | market :: rest, schedules =>
      match schedules market.symbol_raw with
      | none =>
          let r := get_markets_due_for_sampling now_ms rest schedules
          (market :: r.1, r.2)
      | some sch =>
          if sch.next_due_ms ≤ now_ms then
            let r := get_markets_due_for_sampling now_ms rest
              (updateFn schedules market.symbol_raw
                (some { sch with next_due_ms := now_ms + sch.interval_ms }))
            (market :: r.1, r.2)
          else
            get_markets_due_for_sampling now_ms rest schedules

end Collector

namespace Collector

/-! ### Frame lemmas for the hysteresis update -/

lemma update_one_schedules_ne (st : CollectorLevelState) (sym : String)
    (r : MarketRanking) (s : String) (h : s ≠ sym) :
    (update_one st sym r).schedules s = st.schedules s := by
  unfold update_one
  dsimp only
  split_ifs <;> simp [updateFn, h]

lemma update_one_promotion_ne (st : CollectorLevelState) (sym : String)
    (r : MarketRanking) (s : String) (h : s ≠ sym) :
    (update_one st sym r).promotion_counters s = st.promotion_counters s := by
  unfold update_one
  dsimp only
  split_ifs <;> simp [updateFn, h]

lemma update_one_demotion_ne (st : CollectorLevelState) (sym : String)
    (r : MarketRanking) (s : String) (h : s ≠ sym) :
    (update_one st sym r).demotion_counters s = st.demotion_counters s := by
  unfold update_one
  dsimp only
  split_ifs <;> simp [updateFn, h]

end Collector

open Collector in
/-- C10: a market whose symbol is not a key of the rankings map passed to
`_update_levels_with_hysteresis` keeps its schedule entry, its promotion
counter and its demotion counter unchanged across the call, so an
interrupted hysteresis streak survives a cycle that excludes the market. -/
theorem unranked_market_state_unchanged_by_level_update
    (rankings : List (String × MarketRanking)) (st : CollectorLevelState)
    (sym : String) (h : sym ∉ rankings.map Prod.fst) :
    (update_levels_with_hysteresis rankings st).schedules sym = st.schedules sym ∧
    (update_levels_with_hysteresis rankings st).promotion_counters sym
      = st.promotion_counters sym ∧
    (update_levels_with_hysteresis rankings st).demotion_counters sym
      = st.demotion_counters sym := by
  induction rankings generalizing st with
  | nil => exact ⟨rfl, rfl, rfl⟩
  | cons p rest ih =>
      simp only [List.map_cons, List.mem_cons, not_or] at h
      obtain ⟨hne, hrest⟩ := h
      obtain ⟨ih1, ih2, ih3⟩ := ih (update_one st p.1 p.2) (by simpa using hrest)
      refine ⟨?_, ?_, ?_⟩
      · rw [update_levels_with_hysteresis, ih1, update_one_schedules_ne _ _ _ _ hne]
      · rw [update_levels_with_hysteresis, ih2, update_one_promotion_ne _ _ _ _ hne]
      · rw [update_levels_with_hysteresis, ih3, update_one_demotion_ne _ _ _ _ hne]

open Collector in
/-- Witness for the C10 theorem at a concrete state: a symbol absent from a
one-entry rankings map keeps its schedule (none) and both counters (7, 5). -/
theorem unranked_market_state_unchanged_by_level_update_witness :
    (update_levels_with_hysteresis
        [("Y", ⟨"Y", 50, 0, none, none, some 1⟩)]
        ⟨fun _ => none, fun _ => 7, fun _ => 5⟩).schedules "X"
      = (⟨fun _ => none, fun _ => 7, fun _ => 5⟩ : CollectorLevelState).schedules "X" ∧
    (update_levels_with_hysteresis
        [("Y", ⟨"Y", 50, 0, none, none, some 1⟩)]
        ⟨fun _ => none, fun _ => 7, fun _ => 5⟩).promotion_counters "X"
      = (⟨fun _ => none, fun _ => 7, fun _ => 5⟩ : CollectorLevelState).promotion_counters "X" ∧
    (update_levels_with_hysteresis
        [("Y", ⟨"Y", 50, 0, none, none, some 1⟩)]
        ⟨fun _ => none, fun _ => 7, fun _ => 5⟩).demotion_counters "X"
      = (⟨fun _ => none, fun _ => 7, fun _ => 5⟩ : CollectorLevelState).demotion_counters "X" :=
  unranked_market_state_unchanged_by_level_update
    [("Y", ⟨"Y", 50, 0, none, none, some 1⟩)]
    ⟨fun _ => none, fun _ => 7, fun _ => 5⟩ "X" (by decide)

open Collector in
/-- C1 is violated by the code: in `_update_levels_with_hysteresis` the
direct-mapping branch for non-A markets is unreachable (the `if current !=
"A"` / `elif current == "A"` dichotomy is exhaustive), so a level-D market
ranked 150 with spread 10 keeps level D across a full ranking cycle even
though `_assign_level_from_rank` maps rank 150 to level B. -/
theorem scheduled_nonA_market_not_reassigned_by_direct_mapping :
    (refresh_rankings
        [("X", ⟨"X", 150, 0, none, none, some 10⟩)]
        [⟨"XCOIN", "USD", "PERP", "USDC", "X"⟩]
        ⟨fun s => if s = "X" then some ⟨"X", Level.D, 0, 2000⟩ else none,
         fun _ => 0, fun _ => 0⟩).schedules "X"
      = some ⟨"X", Level.D, 0, 2000⟩ ∧
    assign_level_from_rank 150 (some 10) = Level.B := by
  constructor
  · rfl
  · rfl

open Collector in
/-- C3 is violated by the code: `_apply_fallback_safety` only forces a
safety asset to level B when a schedule entry already exists, so a BTC
market ranked 350 with no prior schedule ends the refresh at level D (via
the unscheduled-market initialization), and a run with an empty ranking
map leaves it with no schedule at all. -/
theorem safety_asset_without_schedule_not_forced_to_B :
    (refresh_rankings
        [("BTC", ⟨"BTC", 350, 0, none, none, some 10⟩)]
        [⟨"BTC", "USD", "PERP", "USDC", "BTC"⟩]
        ⟨fun _ => none, fun _ => 0, fun _ => 0⟩).schedules "BTC"
      = some ⟨"BTC", Level.D, 0, 2000⟩ ∧
    (refresh_rankings []
        [⟨"BTC", "USD", "PERP", "USDC", "BTC"⟩]
        ⟨fun _ => none, fun _ => 0, fun _ => 0⟩).schedules "BTC"
      = none := by
  constructor
  · rfl
  · rfl

open Collector in
/-- C2 as stated is violated by the code: promotion eligibility in
`_update_levels_with_hysteresis` is `rank <= 100 and (spread_bps is None
or spread_bps <= 15)`, so a level-D market ranked 50 whose spreadBps is
absent — ineligible per the claim, which requires spreadBps to be present
— is promoted to A after three cycles instead of having its streak reset. -/
theorem promotion_with_missing_spread_counterexample :
    (update_levels_with_hysteresis [("X", ⟨"X", 50, 0, none, none, none⟩)]
      (update_levels_with_hysteresis [("X", ⟨"X", 50, 0, none, none, none⟩)]
        (update_levels_with_hysteresis [("X", ⟨"X", 50, 0, none, none, none⟩)]
          ⟨fun _ => none, fun _ => 0, fun _ => 0⟩))).schedules "X"
      = some ⟨"X", Level.A, 0, 250⟩ := by
  rfl

open Collector in
/-- C2 amended: for a market at a non-A level, a promotion-eligible cycle
— eligible meaning rank ≤ 100 and spreadBps either missing or ≤ 15 —
increments the streak, promotion to A with interval `LEVEL_A_INTERVAL_MS`
(= 250 ms) and streak reset happens exactly when the incremented streak
reaches 3, and any ineligible cycle resets the streak to 0 leaving the
schedule unchanged. -/
theorem promotion_hysteresis_amended (st : CollectorLevelState) (sym : String)
    (r : MarketRanking) (h : currentLevel st sym ≠ Level.A) :
    (promotionEligible r.rank r.spread_bps = true ↔
        (r.rank ≤ 100 ∧ ∀ s, r.spread_bps = some s → s ≤ 15)) ∧
    (promotionEligible r.rank r.spread_bps = true →
      3 ≤ st.promotion_counters sym + 1 →
        (update_one st sym r).schedules sym
            = some ⟨sym, Level.A, 0, LEVEL_A_INTERVAL_MS⟩ ∧
        (update_one st sym r).promotion_counters sym = 0) ∧
    (promotionEligible r.rank r.spread_bps = true →
      st.promotion_counters sym + 1 < 3 →
        (update_one st sym r).schedules sym = st.schedules sym ∧
        (update_one st sym r).promotion_counters sym
            = st.promotion_counters sym + 1) ∧
    (promotionEligible r.rank r.spread_bps = false →
        (update_one st sym r).schedules sym = st.schedules sym ∧
        (update_one st sym r).promotion_counters sym = 0) ∧
    LEVEL_A_INTERVAL_MS = 250 := by
  refine ⟨?_, ?_, ?_, ?_, rfl⟩
  · unfold promotionEligible SPREAD_BPS_NO_A_THRESHOLD
    cases r.spread_bps <;> simp
  · intro he h3
    unfold update_one
    dsimp only
    rw [if_pos h, he, if_pos (by trivial), if_pos h3]
    simp [updateFn]
  · intro he h3
    unfold update_one
    dsimp only
    rw [if_pos h, he, if_pos (by trivial), if_neg (by omega)]
    simp [updateFn]
  · intro he
    unfold update_one
    dsimp only
    rw [if_pos h, he, if_neg (by simp)]
    simp [updateFn]

open Collector in
/-- Witness for the amended C2 theorem: a level-D market ranked 50 with
spread 10 and a streak of 2 is promoted on this cycle with the streak
reset. -/
theorem promotion_hysteresis_amended_witness :
    (promotionEligible (⟨"X", 50, 0, none, none, some 10⟩ : MarketRanking).rank
        (⟨"X", 50, 0, none, none, some 10⟩ : MarketRanking).spread_bps = true ↔
      ((⟨"X", 50, 0, none, none, some 10⟩ : MarketRanking).rank ≤ 100 ∧
        ∀ s, (⟨"X", 50, 0, none, none, some 10⟩ : MarketRanking).spread_bps = some s →
          s ≤ 15)) ∧
    (promotionEligible (⟨"X", 50, 0, none, none, some 10⟩ : MarketRanking).rank
        (⟨"X", 50, 0, none, none, some 10⟩ : MarketRanking).spread_bps = true →
      3 ≤ (⟨fun _ => none, fun s => if s = "X" then 2 else 0, fun _ => 0⟩ :
          CollectorLevelState).promotion_counters "X" + 1 →
        (update_one ⟨fun _ => none, fun s => if s = "X" then 2 else 0, fun _ => 0⟩
            "X" ⟨"X", 50, 0, none, none, some 10⟩).schedules "X"
            = some ⟨"X", Level.A, 0, LEVEL_A_INTERVAL_MS⟩ ∧
        (update_one ⟨fun _ => none, fun s => if s = "X" then 2 else 0, fun _ => 0⟩
            "X" ⟨"X", 50, 0, none, none, some 10⟩).promotion_counters "X" = 0) ∧
    (promotionEligible (⟨"X", 50, 0, none, none, some 10⟩ : MarketRanking).rank
        (⟨"X", 50, 0, none, none, some 10⟩ : MarketRanking).spread_bps = true →
      (⟨fun _ => none, fun s => if s = "X" then 2 else 0, fun _ => 0⟩ :
          CollectorLevelState).promotion_counters "X" + 1 < 3 →
        (update_one ⟨fun _ => none, fun s => if s = "X" then 2 else 0, fun _ => 0⟩
            "X" ⟨"X", 50, 0, none, none, some 10⟩).schedules "X"
            = (⟨fun _ => none, fun s => if s = "X" then 2 else 0, fun _ => 0⟩ :
                CollectorLevelState).schedules "X" ∧
        (update_one ⟨fun _ => none, fun s => if s = "X" then 2 else 0, fun _ => 0⟩
            "X" ⟨"X", 50, 0, none, none, some 10⟩).promotion_counters "X"
            = (⟨fun _ => none, fun s => if s = "X" then 2 else 0, fun _ => 0⟩ :
                CollectorLevelState).promotion_counters "X" + 1) ∧
    (promotionEligible (⟨"X", 50, 0, none, none, some 10⟩ : MarketRanking).rank
        (⟨"X", 50, 0, none, none, some 10⟩ : MarketRanking).spread_bps = false →
        (update_one ⟨fun _ => none, fun s => if s = "X" then 2 else 0, fun _ => 0⟩
            "X" ⟨"X", 50, 0, none, none, some 10⟩).schedules "X"
            = (⟨fun _ => none, fun s => if s = "X" then 2 else 0, fun _ => 0⟩ :
                CollectorLevelState).schedules "X" ∧
        (update_one ⟨fun _ => none, fun s => if s = "X" then 2 else 0, fun _ => 0⟩
            "X" ⟨"X", 50, 0, none, none, some 10⟩).promotion_counters "X" = 0) ∧
    LEVEL_A_INTERVAL_MS = 250 :=
  promotion_hysteresis_amended
    ⟨fun _ => none, fun s => if s = "X" then 2 else 0, fun _ => 0⟩
    "X" ⟨"X", 50, 0, none, none, some 10⟩ (by decide)

namespace Collector

/-! ### Percentile lemmas -/

/-- Sorting first does not change the counts: the percentile equals the
mid-rank formula over the raw value list. -/
lemma calculate_percentile_rank_eq (value : ℚ) (S : List ℚ) (h : S ≠ []) :
    calculate_percentile_rank value S =
      ((S.countP (fun w => decide (w < value)) : ℚ) +
        (S.countP (fun w => decide (w = value)) : ℚ) / 2) / S.length := by
  simp only [calculate_percentile_rank, if_neg h,
    (List.mergeSort_perm S (fun a b => decide (a ≤ b))).countP_eq]

end Collector

open Collector in
/-- C4 is violated on its "strict maximum yields 1.0" part: the mid-rank
percentile of 3 within {1, 2, 3} is 5/6, not 1.0. -/
theorem strict_max_percentile_counterexample :
    calculate_percentile_rank 3 [1, 2, 3] = 5 / 6 ∧ (5 / 6 : ℚ) ≠ 1 := by
  refine ⟨?_, by norm_num⟩
  rw [calculate_percentile_rank_eq 3 [1, 2, 3] (by decide)]
  norm_num [List.countP_cons, List.countP_nil]

open Collector in
/-- C4 amended: for every v in a non-empty set S the percentile is
`(count(s < v) + count(s == v)/2) / |S|`, tied values share the same
percentile, and when v occurs once and is strictly greater than every
other element the percentile is `1 - 1/(2·|S|)` (not 1.0). -/
theorem percentile_mid_rank_amended (v : ℚ) (S : List ℚ) (h1 : S ≠ []) (h2 : v ∈ S) :
    calculate_percentile_rank v S =
      ((S.countP (fun w => decide (w < v)) : ℚ) +
        (S.countP (fun w => decide (w = v)) : ℚ) / 2) / S.length ∧
    (∀ w ∈ S, w = v → calculate_percentile_rank w S = calculate_percentile_rank v S) ∧
    ((∀ w ∈ S, w ≠ v → w < v) → S.countP (fun w => decide (w = v)) = 1 →
      calculate_percentile_rank v S = 1 - 1 / (2 * S.length)) := by
  refine ⟨calculate_percentile_rank_eq v S h1, ?_, ?_⟩
  · intro w _ hwv
    rw [hwv]
  · intro hmax hone
    have hnot : S.countP (fun a => !(decide (a < v))) = 1 := by
      rw [← hone]
      apply List.countP_congr
      intro a ha
      simp only [Bool.not_eq_true', decide_eq_false_iff_not, decide_eq_true_eq]
      constructor
      · intro hav
        rcases eq_or_ne a v with he | hne
        · exact he
        · exact absurd (hmax a ha hne) hav
      · intro he
        rw [he]
        exact lt_irrefl v
    have hsplit : S.length = S.countP (fun w => decide (w < v)) + 1 := by
      have h0 := List.length_eq_countP_add_countP (fun w => decide (w < v)) S
      have h1' : S.countP (fun a => decide ¬(decide (a < v)) = true) = 1 := by
        rw [← hnot]
        apply List.countP_congr
        intro a _
        simp
      rw [h0, h1']
    have hlenpos : 0 < S.length := List.length_pos.mpr h1
    have hlenne : (S.length : ℚ) ≠ 0 := by
      exact_mod_cast Nat.pos_iff_ne_zero.mp hlenpos
    rw [calculate_percentile_rank_eq v S h1, hone]
    have hbelow : (S.countP (fun w => decide (w < v)) : ℚ) = (S.length : ℚ) - 1 := by
      have : (S.length : ℚ) = (S.countP (fun w => decide (w < v)) : ℚ) + 1 := by
        exact_mod_cast congrArg (Nat.cast : ℕ → ℚ) hsplit
      linarith
    rw [hbelow]
    push_cast
    field_simp
    ring

open Collector in
/-- Witness for the amended C4 theorem at v = 3, S = [1, 2, 3]. -/
theorem percentile_mid_rank_amended_witness :
    calculate_percentile_rank 3 [1, 2, 3] =
      ((List.countP (fun w => decide (w < 3)) [1, 2, 3] : ℚ) +
        (List.countP (fun w => decide (w = 3)) [1, 2, 3] : ℚ) / 2) /
        (List.length [1, 2, 3]) ∧
    (∀ w ∈ ([1, 2, 3] : List ℚ), w = 3 →
      calculate_percentile_rank w [1, 2, 3] = calculate_percentile_rank 3 [1, 2, 3]) ∧
    ((∀ w ∈ ([1, 2, 3] : List ℚ), w ≠ 3 → w < 3) →
      List.countP (fun w => decide (w = 3)) ([1, 2, 3] : List ℚ) = 1 →
      calculate_percentile_rank 3 [1, 2, 3] = 1 - 1 / (2 * (List.length [1, 2, 3]))) :=
  percentile_mid_rank_amended 3 [1, 2, 3] (by decide) (by decide)

open Collector in
/-- C6: whenever the computed spreadBps of a fetched snapshot exceeds 30,
`collect_sample` returns no sample and increments the spread-rejected
counter; whenever it is ≤ 30 the sample is returned for buffering (with
that spread recorded) and the counter is untouched. -/
theorem spread_filter_threshold_30 (ts : Int) (market : MarketInfo)
    (bb aa : Option ℚ) (ff : Bool) (contexts : String → Option AssetCtx)
    (rankings : String → Option MarketRanking)
    (schedules : String → Option MarketSchedule) (skipped : Nat) (s : ℚ)
    (h : (book_top bb aa).2.2.2 = some s) :
    (SPREAD_BPS_IGNORE_THRESHOLD < s →
      collect_sample_core ts market bb aa ff contexts rankings schedules skipped
        = (none, skipped + 1)) ∧
    (s ≤ SPREAD_BPS_IGNORE_THRESHOLD →
      (collect_sample_core ts market bb aa ff contexts rankings schedules skipped).2
          = skipped ∧
      ∃ smp,
        (collect_sample_core ts market bb aa ff contexts rankings schedules
            skipped).1 = some smp ∧
        smp.spread_bps = some s) := by
  constructor
  · intro hgt
    simp only [collect_sample_core, h, if_pos hgt]
  · intro hle
    simp only [collect_sample_core, h, if_neg (not_lt.mpr hle)]
    exact ⟨trivial, _, rfl, by simp only [collect_sample_core.mk_market_sample]⟩

open Collector in
/-- Witness for the C6 theorem: best bid 100 / best ask 101 gives mid
100.5 and spreadBps 20000/201 ≈ 99.5, which is rejected and counted. -/
theorem spread_filter_threshold_30_witness :
    (SPREAD_BPS_IGNORE_THRESHOLD < (20000 / 201 : ℚ) →
      collect_sample_core 0 ⟨"BTC", "USD", "PERP", "USDC", "BTC"⟩
          (some 100) (some 101) false (fun _ => none) (fun _ => none)
          (fun _ => none) 4
        = (none, 4 + 1)) ∧
    ((20000 / 201 : ℚ) ≤ SPREAD_BPS_IGNORE_THRESHOLD →
      (collect_sample_core 0 ⟨"BTC", "USD", "PERP", "USDC", "BTC"⟩
          (some 100) (some 101) false (fun _ => none) (fun _ => none)
          (fun _ => none) 4).2 = 4 ∧
      ∃ smp,
        (collect_sample_core 0 ⟨"BTC", "USD", "PERP", "USDC", "BTC"⟩
            (some 100) (some 101) false (fun _ => none) (fun _ => none)
            (fun _ => none) 4).1 = some smp ∧
        smp.spread_bps = some (20000 / 201 : ℚ)) :=
  spread_filter_threshold_30 0 ⟨"BTC", "USD", "PERP", "USDC", "BTC"⟩
    (some 100) (some 101) false (fun _ => none) (fun _ => none)
    (fun _ => none) 4 (20000 / 201) (by norm_num [book_top])

open Collector in
/-- C7: when the transactional batch insert of a flush fails, every sample
of the swapped-out batch is pushed back into the live buffer — the new
buffer is a permutation of the old batch plus the entries appended
meanwhile, nothing is persisted — and a subsequent successful flush
empties the buffer and persists exactly the buffered set. -/
theorem flush_failure_requeues_batch (st : BufferState)
    (new : List MarketSampleRec) (h : st.buffer ≠ []) :
    (flush_buffer false new st).1.buffer.Perm (st.buffer ++ new) ∧
    (flush_buffer false new st).1.db = st.db ∧
    (flush_buffer false new st).2 = 0 ∧
    (flush_buffer true [] (flush_buffer false new st).1).1.db.Perm
      (st.db ++ st.buffer ++ new) ∧
    (flush_buffer true [] (flush_buffer false new st).1).1.buffer = [] ∧
    (flush_buffer true [] (flush_buffer false new st).1).2
      = (flush_buffer false new st).1.buffer.length := by
  have hne : new ++ st.buffer ≠ [] := by
    intro hc
    exact h (List.append_eq_nil.mp hc).2
  have hco : ¬(new = [] ∧ st.buffer = []) := fun hc => h hc.2
  simp [flush_buffer, if_neg h, if_neg hne, if_neg hco]
  exact ⟨List.perm_append_comm, List.Perm.append_left st.db List.perm_append_comm⟩

open Collector in
/-- Witness for the C7 theorem: a two-sample buffer whose failed flush is
retried successfully with one concurrently appended sample. -/
theorem flush_failure_requeues_batch_witness :
    (flush_buffer false [⟨2, "C", "", "", "", "C", none, none, none, none, none,
        none, none, none, Level.D, none, true⟩]
      ⟨[⟨0, "A", "", "", "", "A", none, none, none, none, none, none, none, none,
          Level.D, none, true⟩,
        ⟨1, "B", "", "", "", "B", none, none, none, none, none, none, none, none,
          Level.D, none, true⟩], [], 2⟩).1.buffer.Perm
      (([⟨0, "A", "", "", "", "A", none, none, none, none, none, none, none, none,
          Level.D, none, true⟩,
        ⟨1, "B", "", "", "", "B", none, none, none, none, none, none, none, none,
          Level.D, none, true⟩] : List MarketSampleRec) ++
        [⟨2, "C", "", "", "", "C", none, none, none, none, none, none, none, none,
          Level.D, none, true⟩]) ∧
    (flush_buffer false [⟨2, "C", "", "", "", "C", none, none, none, none, none,
        none, none, none, Level.D, none, true⟩]
      ⟨[⟨0, "A", "", "", "", "A", none, none, none, none, none, none, none, none,
          Level.D, none, true⟩,
        ⟨1, "B", "", "", "", "B", none, none, none, none, none, none, none, none,
          Level.D, none, true⟩], [], 2⟩).1.db = [] ∧
    (flush_buffer false [⟨2, "C", "", "", "", "C", none, none, none, none, none,
        none, none, none, Level.D, none, true⟩]
      ⟨[⟨0, "A", "", "", "", "A", none, none, none, none, none, none, none, none,
          Level.D, none, true⟩,
        ⟨1, "B", "", "", "", "B", none, none, none, none, none, none, none, none,
          Level.D, none, true⟩], [], 2⟩).2 = 0 ∧
    (flush_buffer true []
      (flush_buffer false [⟨2, "C", "", "", "", "C", none, none, none, none, none,
          none, none, none, Level.D, none, true⟩]
        ⟨[⟨0, "A", "", "", "", "A", none, none, none, none, none, none, none, none,
            Level.D, none, true⟩,
          ⟨1, "B", "", "", "", "B", none, none, none, none, none, none, none, none,
            Level.D, none, true⟩], [], 2⟩).1).1.db.Perm
      (([] : List MarketSampleRec) ++
        [⟨0, "A", "", "", "", "A", none, none, none, none, none, none, none, none,
          Level.D, none, true⟩,
        ⟨1, "B", "", "", "", "B", none, none, none, none, none, none, none, none,
          Level.D, none, true⟩] ++
        [⟨2, "C", "", "", "", "C", none, none, none, none, none, none, none, none,
          Level.D, none, true⟩]) ∧
    (flush_buffer true []
      (flush_buffer false [⟨2, "C", "", "", "", "C", none, none, none, none, none,
          none, none, none, Level.D, none, true⟩]
        ⟨[⟨0, "A", "", "", "", "A", none, none, none, none, none, none, none, none,
            Level.D, none, true⟩,
          ⟨1, "B", "", "", "", "B", none, none, none, none, none, none, none, none,
            Level.D, none, true⟩], [], 2⟩).1).1.buffer = [] ∧
    (flush_buffer true []
      (flush_buffer false [⟨2, "C", "", "", "", "C", none, none, none, none, none,
          none, none, none, Level.D, none, true⟩]
        ⟨[⟨0, "A", "", "", "", "A", none, none, none, none, none, none, none, none,
            Level.D, none, true⟩,
          ⟨1, "B", "", "", "", "B", none, none, none, none, none, none, none, none,
            Level.D, none, true⟩], [], 2⟩).1).2
      = (flush_buffer false [⟨2, "C", "", "", "", "C", none, none, none, none, none,
          none, none, none, Level.D, none, true⟩]
        ⟨[⟨0, "A", "", "", "", "A", none, none, none, none, none, none, none, none,
            Level.D, none, true⟩,
          ⟨1, "B", "", "", "", "B", none, none, none, none, none, none, none, none,
            Level.D, none, true⟩], [], 2⟩).1.buffer.length :=
  flush_failure_requeues_batch
    ⟨[⟨0, "A", "", "", "", "A", none, none, none, none, none, none, none, none,
        Level.D, none, true⟩,
      ⟨1, "B", "", "", "", "B", none, none, none, none, none, none, none, none,
        Level.D, none, true⟩], [], 2⟩
    [⟨2, "C", "", "", "", "C", none, none, none, none, none, none, none, none,
      Level.D, none, true⟩]
    (by decide)

open Collector in
/-- C8 is violated by the code: the collector's 24h row-count read
(`get_db_rows_24h`) makes a single attempt and converts any error —
locked or not — into a count of 0 with nothing surfaced and no retry;
moreover the export helper `_retry_on_lock` with an always-locked
operation sleeps only 0.2 s and 0.5 s across its 3 attempts (the
configured 1.0 s delay is never used) before surfacing. -/
theorem read_retry_counterexample :
    get_db_rows_24h (OpOutcome.err true) = (0, 1, none) ∧
    retry_on_lock (fun _ => (OpOutcome.err true : OpOutcome Nat))
      = ⟨none, some true, [0.2, 0.5]⟩ := by
  constructor
  · rfl
  · rfl

open Collector in
/-- C8 amended: the export module's `_retry_on_lock` retries locked
errors across 3 attempts, sleeping 0.2 s then 0.5 s before surfacing the
failure on the third attempt; a non-locked error is surfaced immediately
with no retry; a first-attempt success returns immediately; and the
collector's 24h row count makes a single attempt and returns 0 on any
error without retrying or surfacing it. -/
theorem read_retry_amended {α : Type} (op : Nat → OpOutcome α) (e : Bool) (a : α) :
    ((∀ k, op k = OpOutcome.err true) →
      retry_on_lock op = ⟨none, some true, [0.2, 0.5]⟩) ∧
    (op 0 = OpOutcome.err false → retry_on_lock op = ⟨none, some false, []⟩) ∧
    (op 0 = OpOutcome.ok a → retry_on_lock op = ⟨some a, none, []⟩) ∧
    get_db_rows_24h (OpOutcome.err e) = (0, 1, none) := by
  refine ⟨?_, ?_, ?_, rfl⟩
  · intro hk
    have hop : op = fun _ => OpOutcome.err true := funext hk
    rw [hop]
    rfl
  · intro h0
    simp [retry_on_lock, retry_on_lock_go, h0]
  · intro h0
    simp [retry_on_lock, retry_on_lock_go, h0]

open Collector in
/-- Witness for the amended C8 theorem: the always-locked operation, with
the implications discharged. -/
theorem read_retry_amended_witness :
    retry_on_lock (fun _ => (OpOutcome.err true : OpOutcome Nat))
        = ⟨none, some true, [0.2, 0.5]⟩ ∧
    get_db_rows_24h (OpOutcome.err true : OpOutcome Nat) = (0, 1, none) :=
  ⟨(read_retry_amended (fun _ => (OpOutcome.err true : OpOutcome Nat)) true 0).1
      (fun _ => rfl),
   (read_retry_amended (fun _ => (OpOutcome.err true : OpOutcome Nat)) true 0).2.2.2⟩

namespace Collector

/-! ### Scheduler lemmas -/

lemma due_subset (now : Int) (ms : List MarketInfo) :
    ∀ (sch : String → Option MarketSchedule) m,
      m ∈ (get_markets_due_for_sampling now ms sch).1 → m ∈ ms := by
  induction ms with
  | nil =>
      intro sch m hm
      simp [get_markets_due_for_sampling] at hm
  | cons market rest ih =>
      intro sch m hm
      simp only [get_markets_due_for_sampling] at hm
      split at hm
      · rcases List.mem_cons.mp hm with hh | hh
        · exact hh ▸ List.mem_cons_self _ _
        · exact List.mem_cons_of_mem _ (ih sch m hh)
      · split at hm
        · rcases List.mem_cons.mp hm with hh | hh
          · exact hh ▸ List.mem_cons_self _ _
          · exact List.mem_cons_of_mem _ (ih _ m hh)
        · exact List.mem_cons_of_mem _ (ih sch m hm)

lemma due_schedules_frame (now : Int) (ms : List MarketInfo) :
    ∀ (sch : String → Option MarketSchedule) (s : String),
      (∀ m ∈ ms, m.symbol_raw ≠ s) →
      (get_markets_due_for_sampling now ms sch).2 s = sch s := by
  induction ms with
  | nil =>
      intro sch s _
      simp [get_markets_due_for_sampling]
  | cons market rest ih =>
      intro sch s hs
      have hhead : market.symbol_raw ≠ s := hs market (List.mem_cons_self _ _)
      have hrest : ∀ m ∈ rest, m.symbol_raw ≠ s :=
        fun m hm => hs m (List.mem_cons_of_mem _ hm)
      simp only [get_markets_due_for_sampling]
      split
      · exact ih sch s hrest
      · split
        · rw [ih _ s hrest]
          simp only [updateFn]
          rw [if_neg (fun hc => hhead hc.symm)]
        · exact ih sch s hrest

lemma updateFn_ne {α : Type} (f : String → α) (sym s : String) (v : α)
    (h : s ≠ sym) : updateFn f sym v s = f s :=
  if_neg h

lemma due_schedules_update (now : Int) (ms : List MarketInfo) :
    ∀ (sch : String → Option MarketSchedule),
      (ms.map MarketInfo.symbol_raw).Nodup →
      ∀ m ∈ ms,
        (sch m.symbol_raw = none →
          (get_markets_due_for_sampling now ms sch).2 m.symbol_raw = none) ∧
        (∀ sc, sch m.symbol_raw = some sc → sc.next_due_ms ≤ now →
          (get_markets_due_for_sampling now ms sch).2 m.symbol_raw
            = some { sc with next_due_ms := now + sc.interval_ms }) ∧
        (∀ sc, sch m.symbol_raw = some sc → ¬ sc.next_due_ms ≤ now →
          (get_markets_due_for_sampling now ms sch).2 m.symbol_raw = some sc) := by
  induction ms with
  | nil =>
      intro sch _ m hm
      cases hm
  | cons market rest ih =>
      intro sch hnd m hm
      have hnd_rest : (rest.map MarketInfo.symbol_raw).Nodup :=
        (List.nodup_cons.mp hnd).2
      have hhead_notin : market.symbol_raw ∉ rest.map MarketInfo.symbol_raw :=
        (List.nodup_cons.mp hnd).1
      have hrest_ne : ∀ m' ∈ rest, m'.symbol_raw ≠ market.symbol_raw := by
        intro m' hm' hc
        exact hhead_notin (hc ▸ List.mem_map_of_mem MarketInfo.symbol_raw hm')
      rcases List.mem_cons.mp hm with hh | hmem
      · subst hh
        simp only [get_markets_due_for_sampling]
        split
        next hnone =>
          refine ⟨fun _ => ?_, fun sc hsc _ => ?_, fun sc hsc _ => ?_⟩
          · rw [due_schedules_frame now rest sch _ hrest_ne]
            exact hnone
          · rw [hnone] at hsc
            cases hsc
          · rw [hnone] at hsc
            cases hsc
        next sc0 hsome =>
          split
          next hdue =>
            refine ⟨fun hc => ?_, fun sc hsc _ => ?_, fun sc hsc hnd2 => ?_⟩
            · rw [hsome] at hc
              cases hc
            · rw [hsome] at hsc
              injection hsc with he
              subst he
              rw [due_schedules_frame now rest _ _ hrest_ne]
              simp [updateFn]
            · rw [hsome] at hsc
              injection hsc with he
              subst he
              exact absurd hdue hnd2
          next hnotdue =>
            refine ⟨fun hc => ?_, fun sc hsc hdue => ?_, fun sc hsc _ => ?_⟩
            · rw [hsome] at hc
              cases hc
            · rw [hsome] at hsc
              injection hsc with he
              subst he
              exact absurd hdue hnotdue
            · rw [hsome] at hsc
              injection hsc with he
              subst he
              rw [due_schedules_frame now rest sch _ hrest_ne]
              exact hsome
      · have hne : m.symbol_raw ≠ market.symbol_raw := hrest_ne m hmem
        simp only [get_markets_due_for_sampling]
        split
        next hnone =>
          exact ih sch hnd_rest m hmem
        next sc0 hsome =>
          split
          next hdue =>
            have hquot := ih (updateFn sch market.symbol_raw
              (some { sc0 with next_due_ms := now + sc0.interval_ms })) hnd_rest m hmem
            rwa [updateFn_ne _ _ _ _ hne] at hquot
          next hnotdue =>
            exact ih sch hnd_rest m hmem

lemma due_mem (now : Int) (ms : List MarketInfo) :
    ∀ (sch : String → Option MarketSchedule),
      (ms.map MarketInfo.symbol_raw).Nodup →
      ∀ m, (m ∈ (get_markets_due_for_sampling now ms sch).1 ↔
        (m ∈ ms ∧ (sch m.symbol_raw = none ∨
          ∃ sc, sch m.symbol_raw = some sc ∧ sc.next_due_ms ≤ now))) := by
  induction ms with
  | nil =>
      intro sch _ m
      simp [get_markets_due_for_sampling]
  | cons market rest ih =>
      intro sch hnd m
      have hnd_rest : (rest.map MarketInfo.symbol_raw).Nodup :=
        (List.nodup_cons.mp hnd).2
      have hhead_notin : market.symbol_raw ∉ rest.map MarketInfo.symbol_raw :=
        (List.nodup_cons.mp hnd).1
      have hrest_ne : ∀ m' ∈ rest, m'.symbol_raw ≠ market.symbol_raw := by
        intro m' hm' hc
        exact hhead_notin (hc ▸ List.mem_map_of_mem MarketInfo.symbol_raw hm')
      simp only [get_markets_due_for_sampling]
      split
      next hnone =>
        constructor
        · intro hmm
          rcases List.mem_cons.mp hmm with hh | hh
          · subst hh
            exact ⟨List.mem_cons_self _ _, Or.inl hnone⟩
          · have hr := (ih sch hnd_rest m).mp hh
            exact ⟨List.mem_cons_of_mem _ hr.1, hr.2⟩
        · rintro ⟨hmem, hcond⟩
          rcases List.mem_cons.mp hmem with hh | hh
          · subst hh
            exact List.mem_cons_self _ _
          · exact List.mem_cons.mpr (Or.inr ((ih sch hnd_rest m).mpr ⟨hh, hcond⟩))
      next sc0 hsome =>
        split
        next hdue =>
          constructor
          · intro hmm
            rcases List.mem_cons.mp hmm with hh | hh
            · subst hh
              exact ⟨List.mem_cons_self _ _, Or.inr ⟨sc0, hsome, hdue⟩⟩
            · have hr := (ih _ hnd_rest m).mp hh
              have hne : m.symbol_raw ≠ market.symbol_raw :=
                hrest_ne m (due_subset now rest _ m hh)
              rw [updateFn_ne _ _ _ _ hne] at hr
              exact ⟨List.mem_cons_of_mem _ hr.1, hr.2⟩
          · rintro ⟨hmem, hcond⟩
            rcases List.mem_cons.mp hmem with hh | hh
            · subst hh
              exact List.mem_cons_self _ _
            · have hne : m.symbol_raw ≠ market.symbol_raw := hrest_ne m hh
              refine List.mem_cons.mpr (Or.inr ((ih _ hnd_rest m).mpr ⟨hh, ?_⟩))
              rwa [updateFn_ne _ _ _ _ hne]
        next hnotdue =>
          constructor
          · intro hmm
            have hr := (ih sch hnd_rest m).mp hmm
            exact ⟨List.mem_cons_of_mem _ hr.1, hr.2⟩
          · rintro ⟨hmem, hcond⟩
            rcases List.mem_cons.mp hmem with hh | hh
            · subst hh
              rcases hcond with hc | ⟨sc, hsc, hdue⟩
              · rw [hsome] at hc
                cases hc
              · rw [hsome] at hsc
                injection hsc with he
                subst he
                exact absurd hdue hnotdue
            · exact (ih sch hnd_rest m).mpr ⟨hh, hcond⟩

end Collector

open Collector in
/-- C9: with distinct catalog symbols, the due-markets selection returns a
market iff it has no schedule yet or `now_ms ≥ next_due_ms`; a selected
scheduled market has `next_due_ms` advanced to exactly
`now_ms + interval_ms`; a scheduled market that is not due keeps its
schedule; an unscheduled market stays unscheduled; and symbols outside the
catalog are untouched. -/
theorem due_markets_selection (now : Int) (ms : List MarketInfo)
    (sch : String → Option MarketSchedule)
    (hnd : (ms.map MarketInfo.symbol_raw).Nodup) :
    (∀ m, m ∈ (get_markets_due_for_sampling now ms sch).1 ↔
      (m ∈ ms ∧ (sch m.symbol_raw = none ∨
        ∃ sc, sch m.symbol_raw = some sc ∧ sc.next_due_ms ≤ now))) ∧
    (∀ m ∈ ms, ∀ sc, sch m.symbol_raw = some sc →
      (sc.next_due_ms ≤ now →
        (get_markets_due_for_sampling now ms sch).2 m.symbol_raw
          = some { sc with next_due_ms := now + sc.interval_ms }) ∧
      (¬ sc.next_due_ms ≤ now →
        (get_markets_due_for_sampling now ms sch).2 m.symbol_raw = some sc)) ∧
    (∀ m ∈ ms, sch m.symbol_raw = none →
      (get_markets_due_for_sampling now ms sch).2 m.symbol_raw = none) ∧
    (∀ s, (∀ m ∈ ms, m.symbol_raw ≠ s) →
      (get_markets_due_for_sampling now ms sch).2 s = sch s) := by
  refine ⟨due_mem now ms sch hnd, ?_, ?_, due_schedules_frame now ms sch⟩
  · intro m hm sc hsc
    refine ⟨fun hdue => ?_, fun hnotdue => ?_⟩
    · exact (due_schedules_update now ms sch hnd m hm).2.1 sc hsc hdue
    · exact (due_schedules_update now ms sch hnd m hm).2.2 sc hsc hnotdue
  · intro m hm hnone
    exact (due_schedules_update now ms sch hnd m hm).1 hnone

open Collector in
/-- Witness for the C9 theorem: a catalog of a due scheduled market, a
not-yet-due scheduled market and an unscheduled market at now = 1000. -/
theorem due_markets_selection_witness :
    (∀ m, m ∈ (get_markets_due_for_sampling 1000
        [⟨"A", "USD", "PERP", "USDC", "A"⟩, ⟨"B", "USD", "PERP", "USDC", "B"⟩,
         ⟨"C", "USD", "PERP", "USDC", "C"⟩]
        (fun s => if s = "A" then some ⟨"A", Level.A, 500, 250⟩
          else if s = "B" then some ⟨"B", Level.B, 2000, 2000⟩ else none)).1 ↔
      (m ∈ [(⟨"A", "USD", "PERP", "USDC", "A"⟩ : MarketInfo),
          ⟨"B", "USD", "PERP", "USDC", "B"⟩, ⟨"C", "USD", "PERP", "USDC", "C"⟩] ∧
        ((fun s => if s = "A" then some (⟨"A", Level.A, 500, 250⟩ : MarketSchedule)
            else if s = "B" then some ⟨"B", Level.B, 2000, 2000⟩ else none)
              m.symbol_raw = none ∨
          ∃ sc, (fun s => if s = "A" then some (⟨"A", Level.A, 500, 250⟩ : MarketSchedule)
            else if s = "B" then some ⟨"B", Level.B, 2000, 2000⟩ else none)
              m.symbol_raw = some sc ∧ sc.next_due_ms ≤ 1000))) ∧
    (∀ m ∈ [(⟨"A", "USD", "PERP", "USDC", "A"⟩ : MarketInfo),
        ⟨"B", "USD", "PERP", "USDC", "B"⟩, ⟨"C", "USD", "PERP", "USDC", "C"⟩],
      ∀ sc, (fun s => if s = "A" then some (⟨"A", Level.A, 500, 250⟩ : MarketSchedule)
          else if s = "B" then some ⟨"B", Level.B, 2000, 2000⟩ else none)
            m.symbol_raw = some sc →
        (sc.next_due_ms ≤ 1000 →
          (get_markets_due_for_sampling 1000
            [⟨"A", "USD", "PERP", "USDC", "A"⟩, ⟨"B", "USD", "PERP", "USDC", "B"⟩,
             ⟨"C", "USD", "PERP", "USDC", "C"⟩]
            (fun s => if s = "A" then some ⟨"A", Level.A, 500, 250⟩
              else if s = "B" then some ⟨"B", Level.B, 2000, 2000⟩ else none)).2
                m.symbol_raw
            = some { sc with next_due_ms := 1000 + sc.interval_ms }) ∧
        (¬ sc.next_due_ms ≤ 1000 →
          (get_markets_due_for_sampling 1000
            [⟨"A", "USD", "PERP", "USDC", "A"⟩, ⟨"B", "USD", "PERP", "USDC", "B"⟩,
             ⟨"C", "USD", "PERP", "USDC", "C"⟩]
            (fun s => if s = "A" then some ⟨"A", Level.A, 500, 250⟩
              else if s = "B" then some ⟨"B", Level.B, 2000, 2000⟩ else none)).2
                m.symbol_raw = some sc)) ∧
    (∀ m ∈ [(⟨"A", "USD", "PERP", "USDC", "A"⟩ : MarketInfo),
        ⟨"B", "USD", "PERP", "USDC", "B"⟩, ⟨"C", "USD", "PERP", "USDC", "C"⟩],
      (fun s => if s = "A" then some (⟨"A", Level.A, 500, 250⟩ : MarketSchedule)
          else if s = "B" then some ⟨"B", Level.B, 2000, 2000⟩ else none)
            m.symbol_raw = none →
        (get_markets_due_for_sampling 1000
          [⟨"A", "USD", "PERP", "USDC", "A"⟩, ⟨"B", "USD", "PERP", "USDC", "B"⟩,
           ⟨"C", "USD", "PERP", "USDC", "C"⟩]
          (fun s => if s = "A" then some ⟨"A", Level.A, 500, 250⟩
            else if s = "B" then some ⟨"B", Level.B, 2000, 2000⟩ else none)).2
              m.symbol_raw = none) ∧
    (∀ s, (∀ m ∈ [(⟨"A", "USD", "PERP", "USDC", "A"⟩ : MarketInfo),
        ⟨"B", "USD", "PERP", "USDC", "B"⟩, ⟨"C", "USD", "PERP", "USDC", "C"⟩],
        m.symbol_raw ≠ s) →
      (get_markets_due_for_sampling 1000
        [⟨"A", "USD", "PERP", "USDC", "A"⟩, ⟨"B", "USD", "PERP", "USDC", "B"⟩,
         ⟨"C", "USD", "PERP", "USDC", "C"⟩]
        (fun s => if s = "A" then some ⟨"A", Level.A, 500, 250⟩
          else if s = "B" then some ⟨"B", Level.B, 2000, 2000⟩ else none)).2 s
        = (fun s => if s = "A" then some (⟨"A", Level.A, 500, 250⟩ : MarketSchedule)
          else if s = "B" then some ⟨"B", Level.B, 2000, 2000⟩ else none) s) :=
  due_markets_selection 1000
    [⟨"A", "USD", "PERP", "USDC", "A"⟩, ⟨"B", "USD", "PERP", "USDC", "B"⟩,
     ⟨"C", "USD", "PERP", "USDC", "C"⟩]
    (fun s => if s = "A" then some ⟨"A", Level.A, 500, 250⟩
      else if s = "B" then some ⟨"B", Level.B, 2000, 2000⟩ else none)
    (by decide)

namespace Collector

/-! ### Ranking lemmas -/

/-- Position of a key in a key list (helper for reasoning about the
rank-assignment loop). -/
def keyPos : List String → String → Option Nat
  | [], _ => none
  | k :: ks, s => if k = s then some 0 else (keyPos ks s).map (· + 1)

lemma keyPos_of_mem {s : String} : ∀ {l : List String}, s ∈ l → ∃ j, keyPos l s = some j := by
  intro l hl
  induction l with
  | nil => cases hl
  | cons k ks ih =>
      by_cases hk : k = s
      · exact ⟨0, by simp [keyPos, hk]⟩
      · rcases ih (by rcases List.mem_cons.mp hl with h | h; exact absurd h.symm hk; exact h)
          with ⟨j, hj⟩
        exact ⟨j + 1, by simp [keyPos, hk, hj]⟩

lemma keyPos_of_not_mem {s : String} : ∀ {l : List String}, s ∉ l → keyPos l s = none := by
  intro l hl
  induction l with
  | nil => rfl
  | cons k ks ih =>
      have hk : k ≠ s := fun hc => hl (hc ▸ List.mem_cons_self _ _)
      have hks : s ∉ ks := fun hc => hl (List.mem_cons_of_mem _ hc)
      simp [keyPos, hk, ih hks]

lemma keyPos_getElem : ∀ {l : List String}, l.Nodup →
    ∀ {i : Nat} (hi : i < l.length), keyPos l l[i] = some i := by
  intro l hl
  induction l with
  | nil => intro i hi; cases hi
  | cons k ks ih =>
      intro i hi
      match i with
      | 0 => simp [keyPos]
      | n + 1 =>
          have hks : (ks : List String).Nodup := (List.nodup_cons.mp hl).2
          have hnin : k ∉ ks := (List.nodup_cons.mp hl).1
          have hlt : n < ks.length := by
            simpa using Nat.lt_of_succ_lt_succ hi
          have hne : k ≠ ks[n] := fun hc => hnin (hc ▸ List.getElem_mem _)
          simp [keyPos, hne, ih hks hlt]

lemma keyPos_spec {s : String} : ∀ {l : List String} {j : Nat},
    keyPos l s = some j → ∃ hj : j < l.length, l[j] = s := by
  intro l
  induction l with
  | nil => intro j hj; cases hj
  | cons k ks ih =>
      intro j hj
      by_cases hk : k = s
      · simp [keyPos, hk] at hj
        subst hj
        exact ⟨by simp, hk⟩
      · simp only [keyPos, if_neg hk, Option.map_eq_some'] at hj
        rcases hj with ⟨j0, hj0, hj0e⟩
        rcases ih hj0 with ⟨hlt, hget⟩
        subst hj0e
        exact ⟨by simpa using Nat.succ_lt_succ hlt, by simpa using hget⟩

lemma length_setRank (rs : List (String × MarketRanking)) (sym : String) (k : Nat) :
    (setRank rs sym k).length = rs.length := by
  simp [setRank]

lemma getElem?_setRank (rs : List (String × MarketRanking)) (sym : String) (k : Nat)
    (i : Nat) :
    (setRank rs sym k)[i]? =
      rs[i]?.map (fun p => if p.1 = sym then (p.1, { p.2 with rank := k }) else p) := by
  simp [setRank, List.getElem?_map]

lemma length_assignRanks : ∀ (sorted : List (String × ℚ)) (k : Nat)
    (rs : List (String × MarketRanking)),
    (assignRanks sorted k rs).length = rs.length := by
  intro sorted
  induction sorted with
  | nil => intro k rs; rfl
  | cons p rest ih =>
      intro k rs
      rw [assignRanks, ih, length_setRank]

lemma getElem?_assignRanks : ∀ (sorted : List (String × ℚ)) (k : Nat)
    (rs : List (String × MarketRanking)),
    (sorted.map Prod.fst).Nodup →
    ∀ i : Nat,
    (assignRanks sorted k rs)[i]? =
      rs[i]?.map (fun p =>
        match keyPos (sorted.map Prod.fst) p.1 with
        | some j => (p.1, { p.2 with rank := k + j })
        | none => p) := by
  intro sorted
  induction sorted with
  | nil =>
      intro k rs _ i
      cases hp : rs[i]? with
      | none => simp [assignRanks, hp]
      | some p => simp [assignRanks, hp, keyPos]
  | cons p rest ih =>
      intro k rs hnd i
      have hnd_rest : (rest.map Prod.fst).Nodup := (List.nodup_cons.mp (by simpa using hnd)).2
      have hnotin : p.1 ∉ rest.map Prod.fst := (List.nodup_cons.mp (by simpa using hnd)).1
      obtain ⟨sym, v⟩ := p
      rw [assignRanks, ih _ _ hnd_rest i, getElem?_setRank]
      rw [Option.map_map]
      cases hp : rs[i]? with
      | none => rfl
      | some q =>
          simp only [Option.map_some', Function.comp]
          by_cases hk : q.1 = sym
          · rw [if_pos hk]
            have hnone : keyPos (rest.map Prod.fst) q.1 = none :=
              keyPos_of_not_mem (hk ▸ hnotin)
            simp at hnotin ⊢
            have hne2 : keyPos (rest.map Prod.fst) sym = none := hk ▸ hnone
            simp [keyPos, hk, hne2]
          · rw [if_neg hk]
            have hne : sym ≠ q.1 := fun hc => hk hc.symm
            simp only [List.map_cons, keyPos, if_neg hne]
            cases hkp : keyPos (rest.map Prod.fst) q.1 with
            | none => simp [hkp]
            | some j =>
                simp only [hkp, Option.map_some']
                have harith : k + 1 + j = k + (j + 1) := by omega
                rw [harith]


/-- The sorted score list of `_calculate_rankings`. -/
def sortedScores (md : List (String × SampleRow)) : List (String × ℚ) :=
  (market_scores md).mergeSort scoreDescLE

lemma market_scores_fst (md : List (String × SampleRow)) :
    (market_scores md).map Prod.fst = md.map Prod.fst := by
  simp [market_scores, List.map_map, Function.comp]

lemma length_market_scores (md : List (String × SampleRow)) :
    (market_scores md).length = md.length := by
  simp [market_scores]

lemma length_sortedScores (md : List (String × SampleRow)) :
    (sortedScores md).length = md.length := by
  simp [sortedScores, List.length_mergeSort, length_market_scores]

lemma sorted_keys_perm (md : List (String × SampleRow)) :
    ((sortedScores md).map Prod.fst).Perm (md.map Prod.fst) := by
  have h1 := (List.mergeSort_perm (market_scores md) scoreDescLE).map Prod.fst
  rwa [market_scores_fst] at h1

lemma nodup_sorted_keys (md : List (String × SampleRow))
    (h : (md.map Prod.fst).Nodup) : ((sortedScores md).map Prod.fst).Nodup :=
  (sorted_keys_perm md).nodup_iff.mpr h

lemma scoreDescLE_trans : ∀ a b c : String × ℚ, scoreDescLE a b = true →
    scoreDescLE b c = true → scoreDescLE a c = true := by
  intro a b c h1 h2
  simp only [scoreDescLE, decide_eq_true_eq] at h1 h2 ⊢
  exact le_trans h2 h1

lemma scoreDescLE_total : ∀ a b : String × ℚ,
    (scoreDescLE a b || scoreDescLE b a) = true := by
  intro a b
  simp only [scoreDescLE, Bool.or_eq_true, decide_eq_true_eq]
  exact le_total b.2 a.2

lemma assoc_mem_unique {β : Type} : ∀ {l : List (String × β)},
    (l.map Prod.fst).Nodup → ∀ {k : String} {a b : β},
    (k, a) ∈ l → (k, b) ∈ l → a = b := by
  intro l
  induction l with
  | nil =>
      intro _ k a b ha
      cases ha
  | cons p rest ih =>
      intro hnd k a b ha hb
      have hnotin : p.1 ∉ rest.map Prod.fst := (List.nodup_cons.mp (by simpa using hnd)).1
      have hnd_rest : (rest.map Prod.fst).Nodup := (List.nodup_cons.mp (by simpa using hnd)).2
      rcases List.mem_cons.mp ha with ha1 | ha2 <;> rcases List.mem_cons.mp hb with hb1 | hb2
      · rw [← ha1] at hb1
        exact congrArg Prod.snd hb1.symm
      · exfalso
        apply hnotin
        refine List.mem_map.mpr ⟨(k, b), hb2, ?_⟩
        rw [← ha1]
      · exfalso
        apply hnotin
        refine List.mem_map.mpr ⟨(k, a), ha2, ?_⟩
        rw [← hb1]
      · exact ih hnd_rest ha2 hb2

lemma pair_getElem_sublist {α : Type} : ∀ (l : List α) (i j : Nat) (hij : i < j)
    (hi : i < l.length) (hj : j < l.length), List.Sublist [l[i], l[j]] l := by
  intro l
  induction l with
  | nil =>
      intro i j hij hi hj
      cases hj
  | cons a tl ih =>
      intro i j hij hi hj
      match i, j with
      | 0, jj + 1 =>
          have hjj : jj < tl.length := by simpa using hj
          simpa using List.Sublist.cons₂ a (List.singleton_sublist.mpr (List.getElem_mem hjj))
      | ii + 1, jj + 1 =>
          have hii : ii < tl.length := by simpa using hi
          have hjj : jj < tl.length := by simpa using hj
          simpa using List.Sublist.cons a (ih ii jj (by omega) hii hjj)

lemma sublist_pair_index {α : Type} {x y : α} : ∀ {l : List α}, List.Sublist [x, y] l →
    ∃ a b, ∃ ha : a < l.length, ∃ hb : b < l.length,
      a < b ∧ l[a] = x ∧ l[b] = y := by
  intro l
  induction l with
  | nil =>
      intro hsub
      cases hsub
  | cons hd tl ih =>
      intro hsub
      cases hsub with
      | cons _ h =>
          rcases ih h with ⟨a, b, ha, hb, hab, hx, hy⟩
          exact ⟨a + 1, b + 1, by simpa using ha, by simpa using hb, by omega,
            by simpa using hx, by simpa using hy⟩
      | cons₂ _ h =>
          rcases List.mem_iff_getElem.mp (List.singleton_sublist.mp h) with ⟨b, hb, hy⟩
          exact ⟨0, b + 1, by simp, by simpa using hb, by omega, rfl, by simpa using hy⟩

lemma length_calculate_rankings (md : List (String × SampleRow)) :
    (calculate_rankings md).length = md.length := by
  simp [calculate_rankings, length_assignRanks, rankings_init]

lemma getElem?_rankings_init (md : List (String × SampleRow)) (i : Nat) :
    (rankings_init md)[i]? =
      md[i]?.map (fun p =>
        (p.1,
         { symbol_raw := p.1
           rank := 0
           score := computeScore (volumesOf md) (oisOf md) (spreadsOf md) p.2
           volume_24h_usd := p.2.volume_24h_usd
           open_interest_usd := p.2.open_interest_usd
           spread_bps := p.2.spread_bps : MarketRanking })) := by
  simp [rankings_init, List.getElem?_map]

lemma calculate_rankings_fields (md : List (String × SampleRow))
    (h : (md.map Prod.fst).Nodup) {i : Nat} (hi : i < md.length)
    (hi2 : i < (calculate_rankings md).length) :
    ∃ j, ∃ hj : j < (sortedScores md).length,
      keyPos ((sortedScores md).map Prod.fst) md[i].1 = some j ∧
      (calculate_rankings md)[i] =
        (md[i].1,
         { symbol_raw := md[i].1
           rank := 1 + j
           score := computeScore (volumesOf md) (oisOf md) (spreadsOf md) md[i].2
           volume_24h_usd := md[i].2.volume_24h_usd
           open_interest_usd := md[i].2.open_interest_usd
           spread_bps := md[i].2.spread_bps }) := by
  have hmem : md[i].1 ∈ (sortedScores md).map Prod.fst := by
    apply (sorted_keys_perm md).mem_iff.mpr
    exact List.mem_map_of_mem Prod.fst (List.getElem_mem hi)
  rcases keyPos_of_mem hmem with ⟨j, hj⟩
  rcases keyPos_spec hj with ⟨hjlt, _⟩
  have hjlt2 : j < (sortedScores md).length := by simpa using hjlt
  refine ⟨j, hjlt2, hj, ?_⟩
  have hq := getElem?_assignRanks (sortedScores md) 1 (rankings_init md)
    (nodup_sorted_keys md h) i
  rw [getElem?_rankings_init md i] at hq
  rw [List.getElem?_eq_getElem hi] at hq
  simp only [Option.map_some'] at hq
  rw [hj] at hq
  have hcr : calculate_rankings md = assignRanks (sortedScores md) 1 (rankings_init md) := rfl
  rw [← hcr] at hq
  rw [List.getElem?_eq_getElem hi2] at hq
  dsimp only at hq
  exact Option.some.inj hq

end Collector

open Collector in
/-- C5: for a market-data map with distinct symbols (a Python dict), the
assigned rank fields are exactly a contiguous permutation of 1..N, entries
are ordered by descending composite score (a smaller rank never carries a
smaller score), and score ties keep insertion (discovery) order — the
earlier entry gets the smaller rank — by sort stability. -/
theorem rankings_contiguous_descending_stable (md : List (String × SampleRow))
    (h : (md.map Prod.fst).Nodup) :
    ((calculate_rankings md).map (fun p => p.2.rank)).Perm
      (List.range' 1 md.length) ∧
    (∀ p ∈ calculate_rankings md, ∀ q ∈ calculate_rankings md,
      p.2.rank < q.2.rank → q.2.score ≤ p.2.score) ∧
    List.Pairwise (fun p q => p.2.score = q.2.score → p.2.rank < q.2.rank)
      (calculate_rankings md) := by
  have hnds : ((sortedScores md).map Prod.fst).Nodup := nodup_sorted_keys md h
  have hlenout : (calculate_rankings md).length = md.length :=
    length_calculate_rankings md
  have hlens : (sortedScores md).length = md.length := length_sortedScores md
  have hnodup_ms : ((market_scores md).map Prod.fst).Nodup := by
    rw [market_scores_fst]
    exact h
  have hsorted : List.Pairwise (fun a b => scoreDescLE a b = true) (sortedScores md) :=
    @List.sorted_mergeSort _ scoreDescLE scoreDescLE_trans scoreDescLE_total
      (market_scores md)
  have hms_getElem : ∀ {n : Nat} (hn : n < md.length)
      (hn2 : n < (market_scores md).length),
      (market_scores md)[n]
        = (md[n].1,
          computeScore (volumesOf md) (oisOf md) (spreadsOf md) md[n].2) := by
    intro n hn hn2
    simp [market_scores]
  have hscore_at : ∀ {n j : Nat} (hn : n < md.length)
      (hj : j < (sortedScores md).length),
      keyPos ((sortedScores md).map Prod.fst) md[n].1 = some j →
      (sortedScores md)[j].2
        = computeScore (volumesOf md) (oisOf md) (spreadsOf md) md[n].2 := by
    intro n j hn hj hkp
    have hn2 : n < (market_scores md).length := by
      rw [length_market_scores]
      exact hn
    rcases keyPos_spec hkp with ⟨hjlt, hkey⟩
    have hkey2 : (sortedScores md)[j].1 = md[n].1 := by
      rw [List.getElem_map] at hkey
      exact hkey
    have hmem1 : (md[n].1, (sortedScores md)[j].2) ∈ market_scores md := by
      have hmem0 : (sortedScores md)[j] ∈ market_scores md :=
        (List.mergeSort_perm (market_scores md) scoreDescLE).mem_iff.mp
          (List.getElem_mem hj)
      rw [← hkey2]
      simpa using hmem0
    have hmem2 : (md[n].1,
        computeScore (volumesOf md) (oisOf md) (spreadsOf md) md[n].2)
        ∈ market_scores md := by
      rw [← hms_getElem hn hn2]
      exact List.getElem_mem _
    exact assoc_mem_unique hnodup_ms hmem1 hmem2
  refine ⟨?_, ?_, ?_⟩
  · have hstep1 : (calculate_rankings md).map (fun p => p.2.rank)
        = (md.map Prod.fst).map
          (fun s => 1 + (keyPos ((sortedScores md).map Prod.fst) s).getD 0) := by
      apply List.ext_getElem
      · simp [hlenout]
      · intro n h1 h2
        have hn : n < md.length := by
          rw [List.length_map, hlenout] at h1
          exact h1
        rcases calculate_rankings_fields md h hn
          (by rw [length_calculate_rankings]; exact hn) with ⟨j, hjlt, hkp, hout⟩
        simp only [List.getElem_map]
        rw [hout, hkp]
        rfl
    have hstep3 : ((sortedScores md).map Prod.fst).map
        (fun s => 1 + (keyPos ((sortedScores md).map Prod.fst) s).getD 0)
        = List.range' 1 md.length := by
      apply List.ext_getElem
      · simp [hlens]
      · intro n h1 h2
        have hn : n < ((sortedScores md).map Prod.fst).length := by
          simpa using h1
        have hkp := keyPos_getElem hnds hn
        rw [List.getElem_map] at hkp
        simp only [List.getElem_map]
        rw [hkp]
        simp [List.getElem_range']
    rw [hstep1, ← hstep3]
    exact ((sorted_keys_perm md).map _).symm
  · intro p hp q hq hrank
    rcases List.mem_iff_getElem.mp hp with ⟨ip, hip, hpe⟩
    rcases List.mem_iff_getElem.mp hq with ⟨iq, hiq, hqe⟩
    have hip2 : ip < md.length := by
      rw [hlenout] at hip
      exact hip
    have hiq2 : iq < md.length := by
      rw [hlenout] at hiq
      exact hiq
    rcases calculate_rankings_fields md h hip2 hip with ⟨jp, hjplt, hkpp, houtp⟩
    rcases calculate_rankings_fields md h hiq2 hiq with ⟨jq, hjqlt, hkpq, houtq⟩
    have hpp : p = (md[ip].1,
        { symbol_raw := md[ip].1
          rank := 1 + jp
          score := computeScore (volumesOf md) (oisOf md) (spreadsOf md) md[ip].2
          volume_24h_usd := md[ip].2.volume_24h_usd
          open_interest_usd := md[ip].2.open_interest_usd
          spread_bps := md[ip].2.spread_bps }) := by
      rw [← hpe]
      exact houtp
    have hqq : q = (md[iq].1,
        { symbol_raw := md[iq].1
          rank := 1 + jq
          score := computeScore (volumesOf md) (oisOf md) (spreadsOf md) md[iq].2
          volume_24h_usd := md[iq].2.volume_24h_usd
          open_interest_usd := md[iq].2.open_interest_usd
          spread_bps := md[iq].2.spread_bps }) := by
      rw [← hqe]
      exact houtq
    have hjpjq : jp < jq := by
      rw [hpp, hqq] at hrank
      simpa using hrank
    have hrel := (List.pairwise_iff_getElem.mp hsorted) jp jq hjplt hjqlt hjpjq
    simp only [scoreDescLE, decide_eq_true_eq] at hrel
    rw [hscore_at hip2 hjplt hkpp] at hrel
    rw [hscore_at hiq2 hjqlt hkpq] at hrel
    rw [hpp, hqq]
    simpa using hrel
  · rw [List.pairwise_iff_getElem]
    intro i j hi hj hij
    have hi2 : i < md.length := by
      rw [hlenout] at hi
      exact hi
    have hj2 : j < md.length := by
      rw [hlenout] at hj
      exact hj
    rcases calculate_rankings_fields md h hi2 hi with ⟨ji, hjilt, hkpi, houti⟩
    rcases calculate_rankings_fields md h hj2 hj with ⟨jj, hjjlt, hkpj, houtj⟩
    rw [houti, houtj]
    intro heq
    simp only at heq
    have hjms : j < (market_scores md).length := by
      rw [length_market_scores]
      exact hj2
    have hims : i < (market_scores md).length := lt_trans hij hjms
    have hsub1 := pair_getElem_sublist (market_scores md) i j hij hims hjms
    have hle : scoreDescLE ((market_scores md)[i])
        ((market_scores md)[j]) = true := by
      simp only [scoreDescLE, decide_eq_true_eq]
      rw [hms_getElem hi2 hims, hms_getElem hj2 hjms]
      exact le_of_eq heq.symm
    have hsub2 := List.pair_sublist_mergeSort scoreDescLE_trans scoreDescLE_total
      hle hsub1
    rcases sublist_pair_index hsub2 with ⟨a, b, ha, hb, hab, hxa, hyb⟩
    have ha2 : a < ((sortedScores md).map Prod.fst).length := by
      simpa [sortedScores] using ha
    have hb2 : b < ((sortedScores md).map Prod.fst).length := by
      simpa [sortedScores] using hb
    have hkeya : ((sortedScores md).map Prod.fst)[a] = md[i].1 := by
      rw [List.getElem_map]
      simp only [sortedScores]
      have := congrArg Prod.fst hxa
      rw [this, hms_getElem hi2 hims]
    have hkeyb : ((sortedScores md).map Prod.fst)[b] = md[j].1 := by
      rw [List.getElem_map]
      simp only [sortedScores]
      have := congrArg Prod.fst hyb
      rw [this, hms_getElem hj2 hjms]
    rcases keyPos_spec hkpi with ⟨hjilt2, hkeyi⟩
    rcases keyPos_spec hkpj with ⟨hjjlt2, hkeyj⟩
    have haji : a = ji := by
      apply (List.Nodup.getElem_inj_iff hnds).mp
      rw [hkeya, hkeyi]
    have hbjj : b = jj := by
      apply (List.Nodup.getElem_inj_iff hnds).mp
      rw [hkeyb, hkeyj]
    subst haji
    subst hbjj
    simpa using Nat.add_lt_add_left hab 1

open Collector in
/-- Witness for the C5 theorem on a concrete two-market data map. -/
theorem rankings_contiguous_descending_stable_witness :
    ((calculate_rankings
        [("X", ⟨some 10, none, some 5⟩), ("Y", ⟨some 20, some 3, none⟩)]).map
        (fun p => p.2.rank)).Perm
      (List.range' 1
        ([("X", (⟨some 10, none, some 5⟩ : SampleRow)),
          ("Y", ⟨some 20, some 3, none⟩)] : List (String × SampleRow)).length) ∧
    (∀ p ∈ calculate_rankings
        [("X", ⟨some 10, none, some 5⟩), ("Y", ⟨some 20, some 3, none⟩)],
      ∀ q ∈ calculate_rankings
        [("X", ⟨some 10, none, some 5⟩), ("Y", ⟨some 20, some 3, none⟩)],
      p.2.rank < q.2.rank → q.2.score ≤ p.2.score) ∧
    List.Pairwise (fun p q => p.2.score = q.2.score → p.2.rank < q.2.rank)
      (calculate_rankings
        [("X", ⟨some 10, none, some 5⟩), ("Y", ⟨some 20, some 3, none⟩)]) :=
  rankings_contiguous_descending_stable
    [("X", ⟨some 10, none, some 5⟩), ("Y", ⟨some 20, some 3, none⟩)] (by decide)
